import Mathlib

/-!
Verification of the policy/customer/ledger aggregation and filtering logic of
the invoice repository (a single-page insurance-brokerage console).

Shallow embedding conventions, used consistently below:
* JS numbers that hold money are modelled as `Option ℚ`: `some q` is the
  numeric value, `none` stands for the non-numeric `NaN` (every JS comparison
  with `NaN` is false, and `parseFloat(x) || 0` collapses `NaN` to `0`,
  which is `Option.getD 0` here).
* Calendar dates and timestamps are modelled as `Option Nat`: milliseconds
  since the epoch for a present, parseable value (`new Date(s).getTime()`),
  `none` for an absent one.  `setHours(0,0,0,0)` is `dayFloor`,
  `setHours(23,59,59,999)` adds `msPerDay - 1` to the day floor.
* Strings are Lean `String`s; JS truthiness of a string is `≠ ""`.
  Case-insensitive operations use an explicit ASCII lower-casing on the
  underlying character list (the fragment of `toLowerCase` this UI needs)
  and an explicit substring test mirroring `String.prototype.includes`.
* `policy.customer` may be absent (optional chaining in the source), so it is
  an `Option Customer`; the embedded customer's own fields are plain strings.
-/

/-- Milliseconds per calendar day. -/
def msPerDay : Nat := 86400000

/-- Models `d.setHours(0,0,0,0)`: strip the time of day from a timestamp. -/
def dayFloor (t : Nat) : Nat := t / msPerDay * msPerDay

/-- An embedded customer snapshot (`policy.customer` in the source). -/
structure Customer where
  firstName : String
  lastName : String
  phoneNumber : String
  idNumber : String
  address : String
  city : String
  postalCode : String
deriving DecidableEq, Repr

/-- One insurance policy document, as held in the Policies snapshot. -/
structure Policy where
  id : String
  policyType : String
  policyDate : Option Nat
  validUntil : Option Nat
  totalAmount : Option ℚ
  commission : Option ℚ
  policyNumber : String
  vehicleNumber : String
  insuranceType : String
  paidByCustomer : Bool
  paidToInsurer : Bool
  customer : Option Customer
  createdAt : Option Nat
deriving DecidableEq, Repr

/-- One payment/expense document, as held in the LedgerEntries snapshot.
`type` is the literal string `"Payment"` or `"Expense"` in the source. -/
structure LedgerEntry where
  id : String
  type : String
  date : Option Nat
  amount : Option ℚ
  reason : String
  policyId : Option String
  createdAt : Option Nat
deriving DecidableEq, Repr

/-- Models `parseFloat(x) || 0` applied to a stored numeric field: `NaN` (and only
`NaN`, since `0 || 0` is `0`) is replaced by `0`. -/
def numOrZero (x : Option ℚ) : ℚ := x.getD 0

/-- The six scalar cards computed by the `Dashboard` component. -/
structure DashboardSummary where
  totalPolicies : Nat
  totalPolicyValue : ℚ
  totalCommission : ℚ
  policiesPaidByCustomer : Nat
  policiesPaidToInsurer : Nat
  overduePolicies : Nat
deriving DecidableEq, Repr

/-- The `Dashboard` component's aggregation (src/unnamed/part_000, lines
91-101), with `now` the current clock reading: `totalPolicies` is
`policies.length`; the two money totals are `reduce` folds of
`parseFloat(…) || 0`; the two paid counts are `filter(...).length`; a policy
is overdue when its `validUntil` is present and its parsed date is strictly
before `today` with `setHours(0,0,0,0)` applied. -/
def dashboardSummary (now : Nat) (policies : List Policy) : DashboardSummary :=
  { totalPolicies := policies.length
    totalPolicyValue := policies.foldl (fun acc p => acc + numOrZero p.totalAmount) 0
    totalCommission := policies.foldl (fun acc p => acc + numOrZero p.commission) 0
    policiesPaidByCustomer := (policies.filter (fun p => p.paidByCustomer)).length
    policiesPaidToInsurer := (policies.filter (fun p => p.paidToInsurer)).length
    overduePolicies := (policies.filter (fun p =>
        match p.validUntil with
        | some t => decide (t < dayFloor now)
        | none => false)).length }

/-- A fold that adds `f p` at each step equals the sum of the mapped list. -/
theorem foldl_add_map {α : Type} (f : α → ℚ) :
    ∀ (l : List α) (c : ℚ), l.foldl (fun acc p => acc + f p) c = c + (l.map f).sum := by
  intro l
  induction l with
  | nil => intro c; simp
  | cons x xs ih =>
      intro c
      simp only [List.foldl_cons, List.map_cons, List.sum_cons, ih]
      ring

/-- Comparing a timestamp against a day floor is unaffected by stripping the
time of day from the left-hand side as well: for a midnight `dayFloor now`,
`t < dayFloor now ↔ dayFloor t < dayFloor now`. -/
theorem lt_dayFloor_iff (t now : Nat) : t < dayFloor now ↔ dayFloor t < dayFloor now := by
  constructor
  · intro h
    exact Nat.lt_of_le_of_lt (Nat.div_mul_le_self t msPerDay) h
  · intro h
    by_contra hnot
    have hle : dayFloor now ≤ t := Nat.le_of_not_lt hnot
    have hD : 0 < msPerDay := by decide
    have h1 : dayFloor now / msPerDay ≤ t / msPerDay := Nat.div_le_div_right hle
    have h2 : dayFloor now / msPerDay = now / msPerDay := by
      unfold dayFloor
      exact Nat.mul_div_cancel_left' (Nat.dvd_refl msPerDay) ▸ Nat.mul_div_cancel _ hD
    have h3 : now / msPerDay ≤ t / msPerDay := h2 ▸ h1
    have h4 : dayFloor now ≤ dayFloor t := Nat.mul_le_mul_right msPerDay h3
    exact absurd h4 (Nat.not_le_of_lt h)

/-- C1: the dashboard summary counts all policies; the two money totals are
the sums of `totalAmount`/`commission` with non-numeric or missing values
contributing `0`; the paid counters count the respective boolean flags; a
policy is counted overdue exactly when `validUntil` is present and, with the
time of day stripped from both the policy date and the current day, is
strictly earlier than the start of the current calendar day; and the empty
list yields the all-zero summary (the computation is a total function, so it
never throws). -/
theorem dashboardSummary_correct (now : Nat) (policies : List Policy) :
    (dashboardSummary now policies).totalPolicies = policies.length
    ∧ (dashboardSummary now policies).totalPolicyValue
        = (policies.map (fun p => numOrZero p.totalAmount)).sum
    ∧ (dashboardSummary now policies).totalCommission
        = (policies.map (fun p => numOrZero p.commission)).sum
    ∧ (dashboardSummary now policies).policiesPaidByCustomer
        = policies.countP (fun p => p.paidByCustomer)
    ∧ (dashboardSummary now policies).policiesPaidToInsurer
        = policies.countP (fun p => p.paidToInsurer)
    ∧ (dashboardSummary now policies).overduePolicies
        = policies.countP (fun p =>
            p.validUntil.any (fun t => decide (dayFloor t < dayFloor now)))
    ∧ dashboardSummary now [] = ⟨0, 0, 0, 0, 0, 0⟩ := by
  refine ⟨rfl, ?_, ?_, ?_, ?_, ?_, ?_⟩
  · show policies.foldl _ 0 = _
    rw [foldl_add_map]; ring
  · show policies.foldl _ 0 = _
    rw [foldl_add_map]; ring
  · simp [dashboardSummary, List.countP_eq_length_filter]
  · simp [dashboardSummary, List.countP_eq_length_filter]
  · show (policies.filter _).length = _
    rw [List.countP_eq_length_filter]
    congr 1
    apply List.filter_congr
    intro p _
    cases hv : p.validUntil with
    | none => simp [hv]
    | some t =>
        simp only [hv, Option.any_some, decide_eq_decide]
        exact lt_dayFloor_iff t now
  · rfl

/-! ### Case-insensitive string matching (`toLowerCase().includes(...)`) -/

/-- ASCII lower-casing of one character (the fragment of `toLowerCase`
exercised by this UI's data). -/
def lowerCh (c : Char) : Char :=
  if 65 ≤ c.toNat ∧ c.toNat ≤ 90 then Char.ofNat (c.toNat + 32) else c

/-- Lower-cased character list of a string. -/
def lowerList (s : String) : List Char := s.data.map lowerCh

/-- Whether `needle` is a leading run of `hay`. -/
def subAt : List Char → List Char → Bool
  | [], _ => true
  | _ :: _, [] => false
  | a :: as, b :: bs => a == b && subAt as bs

/-- Whether `needle` occurs contiguously somewhere in `hay`
(`String.prototype.includes`; the empty needle always matches). -/
def hasSub (needle : List Char) : List Char → Bool
  | [] => needle.isEmpty
  | b :: bs => subAt needle (b :: bs) || hasSub needle bs

/-- Models `s.toLowerCase().includes(sub.toLowerCase())`. -/
def containsCI (s sub : String) : Bool := hasSub (lowerList sub) (lowerList s)

/-! ### The ViewPolicies filter -/

/-- The seven filter controls of `ViewPolicies`.  The two paid filters hold
the literal select values `"all"`/`"yes"`/`"no"`; the two date bounds are
the parsed date-input values, `none` when the input is empty (falsy). -/
structure PolicyFilters where
  policyType : String
  customerName : String
  policyNumber : String
  paidByCustomer : String
  paidToInsurer : String
  validUntilStartDate : Option Nat
  validUntilEndDate : Option Nat
deriving Repr

/-- The filter step of `filteredAndSortedPolicies` (src/unnamed/part_000,
lines 332-357): the conjunction of the six per-field predicates.  Each
valid-until bound is applied only when both the bound and the policy's
`validUntil` are present (truthy), exactly as the two guarded `if`s in the
source; `start` gets `setHours(0,0,0,0)`, `end` gets `setHours(23,59,59,999)`. -/
def policyMatches (f : PolicyFilters) (p : Policy) : Bool :=
  let matchesPolicyType := f.policyType == "" || containsCI p.policyType f.policyType
  let matchesCustomerName := f.customerName == "" ||
    (match p.customer with
     | some c => containsCI c.firstName f.customerName || containsCI c.lastName f.customerName
     | none => false)
  let matchesPolicyNumber := f.policyNumber == "" || containsCI p.policyNumber f.policyNumber
  let matchesPaidByCustomer := f.paidByCustomer == "all"
    || p.paidByCustomer == (f.paidByCustomer == "yes")
  let matchesPaidToInsurer := f.paidToInsurer == "all"
    || p.paidToInsurer == (f.paidToInsurer == "yes")
  let matchesValidUntilDate :=
    (match f.validUntilStartDate, p.validUntil with
     | some s, some v => decide (dayFloor s ≤ v)
     | _, _ => true)
    && (match f.validUntilEndDate, p.validUntil with
        | some e, some v => decide (v ≤ dayFloor e + (msPerDay - 1))
        | _, _ => true)
  matchesPolicyType && matchesCustomerName && matchesPolicyNumber
    && matchesPaidByCustomer && matchesPaidToInsurer && matchesValidUntilDate

/-- The filtered policy list shown by `ViewPolicies` (before sorting). -/
def filteredPolicies (f : PolicyFilters) (l : List Policy) : List Policy :=
  l.filter (policyMatches f)

/-- C4: a policy appears in the filtered list iff it is in the input and all
six conditions hold: each text filter is empty or matched case-insensitively
(customer name against either first or last name of the embedded customer),
each paid filter is `"all"` or the flag equals `(filter == "yes")`, and each
supplied valid-until bound is honoured, the bound check being skipped when
the policy's `validUntil` is absent. -/
theorem filteredPolicies_mem_iff (f : PolicyFilters) (l : List Policy) (p : Policy) :
    p ∈ filteredPolicies f l
      ↔ p ∈ l
        ∧ (f.policyType = "" ∨ containsCI p.policyType f.policyType = true)
        ∧ (f.customerName = "" ∨ ∃ c, p.customer = some c
            ∧ (containsCI c.firstName f.customerName = true
               ∨ containsCI c.lastName f.customerName = true))
        ∧ (f.policyNumber = "" ∨ containsCI p.policyNumber f.policyNumber = true)
        ∧ (f.paidByCustomer = "all" ∨ p.paidByCustomer = (f.paidByCustomer == "yes"))
        ∧ (f.paidToInsurer = "all" ∨ p.paidToInsurer = (f.paidToInsurer == "yes"))
        ∧ ((∀ s v, f.validUntilStartDate = some s → p.validUntil = some v → dayFloor s ≤ v)
           ∧ (∀ e v, f.validUntilEndDate = some e → p.validUntil = some v
                → v ≤ dayFloor e + (msPerDay - 1))) := by
  unfold filteredPolicies
  rw [List.mem_filter]
  refine and_congr Iff.rfl ?_
  show policyMatches f p = true ↔ _
  unfold policyMatches
  have hc : (match p.customer with
      | some c => containsCI c.firstName f.customerName || containsCI c.lastName f.customerName
      | none => false) = true
      ↔ ∃ c, p.customer = some c ∧ (containsCI c.firstName f.customerName = true
            ∨ containsCI c.lastName f.customerName = true) := by
    cases p.customer <;> simp
  have hs : (match f.validUntilStartDate, p.validUntil with
      | some s, some v => decide (dayFloor s ≤ v)
      | _, _ => true) = true
      ↔ ∀ s v, f.validUntilStartDate = some s → p.validUntil = some v → dayFloor s ≤ v := by
    cases f.validUntilStartDate <;> cases p.validUntil <;> simp
  have he : (match f.validUntilEndDate, p.validUntil with
      | some e, some v => decide (v ≤ dayFloor e + (msPerDay - 1))
      | _, _ => true) = true
      ↔ ∀ e v, f.validUntilEndDate = some e → p.validUntil = some v
          → v ≤ dayFloor e + (msPerDay - 1) := by
    cases f.validUntilEndDate <;> cases p.validUntil <;> simp
  simp only [Bool.and_eq_true, Bool.or_eq_true, beq_iff_eq, hc, hs, he]
  simp only [and_assoc]

/-! ### The financial report -/

/-- The timestamp a ledger entry is filtered by:
`item.createdAt?.toDate() || new Date(item.date)`. -/
def entryEffTime (it : LedgerEntry) : Option Nat :=
  match it.createdAt with
  | some t => some t
  | none => it.date

/-- The policies retained by the report's date filter: all of them without a
range, otherwise those whose `createdAt` is present and inside
`[start 00:00:00.000, end 23:59:59.999]`. -/
def reportPolicies (policies : List Policy) (range : Option (Nat × Nat)) : List Policy :=
  match range with
  | none => policies
  | some (startDate, endDate) =>
      policies.filter (fun p =>
        match p.createdAt with
        | some t => decide (dayFloor startDate ≤ t)
            && decide (t ≤ dayFloor endDate + (msPerDay - 1))
        | none => false)

/-- The ledger entries retained by the report's date filter, using
`entryEffTime` (an entry whose effective time is `NaN` fails both
comparisons and is dropped). -/
def reportEntries (entries : List LedgerEntry) (range : Option (Nat × Nat)) :
    List LedgerEntry :=
  match range with
  | none => entries
  | some (startDate, endDate) =>
      entries.filter (fun it =>
        match entryEffTime it with
        | some t => decide (dayFloor startDate ≤ t)
            && decide (t ≤ dayFloor endDate + (msPerDay - 1))
        | none => false)

/-- The figures computed by the `FinancialReports` component. -/
structure FinancialReport where
  filteredPoliciesReport : List Policy
  filteredPaymentsExpenses : List LedgerEntry
  totalIncome : ℚ
  totalCommission : ℚ
  totalExpenses : ℚ
  commissionNotPaidToInsurer : ℚ
  totalUnpaidToInsurer : ℚ
  amountDueToInsurer : ℚ
deriving Repr

/-- The `FinancialReports` component (src/unnamed/part_000, lines 153-184): filter both
snapshots by the optional date range, then fold the six money figures. -/
def financialReport (policies : List Policy) (paymentsExpenses : List LedgerEntry)
    (range : Option (Nat × Nat)) : FinancialReport :=
  let fp := reportPolicies policies range
  let fe := reportEntries paymentsExpenses range
  let totalIncome := fp.foldl (fun acc p => acc + numOrZero p.totalAmount) 0
  let totalCommission := fp.foldl (fun acc p => acc + numOrZero p.commission) 0
  let totalExpenses := (fe.filter (fun it => it.type == "Expense")).foldl
      (fun acc it => acc + numOrZero it.amount) 0
  let commissionNotPaidToInsurer := fp.foldl
      (fun acc p => acc + (if p.paidToInsurer then 0 else numOrZero p.commission)) 0
  let totalUnpaidToInsurer := fp.foldl
      (fun acc p => acc + (if p.paidToInsurer then 0 else numOrZero p.totalAmount)) 0
  { filteredPoliciesReport := fp
    filteredPaymentsExpenses := fe
    totalIncome := totalIncome
    totalCommission := totalCommission
    totalExpenses := totalExpenses
    commissionNotPaidToInsurer := commissionNotPaidToInsurer
    totalUnpaidToInsurer := totalUnpaidToInsurer
    amountDueToInsurer := totalUnpaidToInsurer - commissionNotPaidToInsurer }

/-- Dropping the summands on which `c` holds equals summing over the
filtered complement. -/
theorem sum_map_ite {α : Type} (c : α → Bool) (f : α → ℚ) :
    ∀ l : List α,
      (l.map (fun p => if c p then 0 else f p)).sum
        = ((l.filter (fun p => !c p)).map f).sum := by
  intro l
  induction l with
  | nil => rfl
  | cons x xs ih =>
      by_cases hx : c x = true <;>
        simp [hx, ih]

/-- Projections of `financialReport` (the record fields are the `let`
bindings of the component body). -/
theorem financialReport_filteredPolicies (policies : List Policy)
    (entries : List LedgerEntry) (range : Option (Nat × Nat)) :
    (financialReport policies entries range).filteredPoliciesReport
      = reportPolicies policies range := rfl

/-- C3: the financial report filters both collections to the supplied
day-granular window (no filtering without a range), keying policies on
`createdAt` and ledger entries on `createdAt` with fallback to their own
`date`; the six figures are the stated sums over the filtered collections,
with Expense-typed entries alone feeding `totalExpenses` and the unpaid
sums restricted to policies with `paidToInsurer` false; and
`amountDueToInsurer` is their difference. -/
theorem financialReport_correct (policies : List Policy) (entries : List LedgerEntry)
    (range : Option (Nat × Nat)) :
    (∀ p, p ∈ (financialReport policies entries range).filteredPoliciesReport
        ↔ p ∈ policies
          ∧ (match range with
             | none => True
             | some (s, e) => ∃ t, p.createdAt = some t
                 ∧ dayFloor s ≤ t ∧ t ≤ dayFloor e + (msPerDay - 1)))
    ∧ (∀ it, it ∈ (financialReport policies entries range).filteredPaymentsExpenses
        ↔ it ∈ entries
          ∧ (match range with
             | none => True
             | some (s, e) => ∃ t,
                 (it.createdAt = some t ∨ (it.createdAt = none ∧ it.date = some t))
                 ∧ dayFloor s ≤ t ∧ t ≤ dayFloor e + (msPerDay - 1)))
    ∧ (financialReport policies entries range).totalIncome
        = ((financialReport policies entries range).filteredPoliciesReport.map
            (fun p => numOrZero p.totalAmount)).sum
    ∧ (financialReport policies entries range).totalCommission
        = ((financialReport policies entries range).filteredPoliciesReport.map
            (fun p => numOrZero p.commission)).sum
    ∧ (financialReport policies entries range).totalExpenses
        = (((financialReport policies entries range).filteredPaymentsExpenses.filter
              (fun it => it.type == "Expense")).map
            (fun it => numOrZero it.amount)).sum
    ∧ (financialReport policies entries range).commissionNotPaidToInsurer
        = (((financialReport policies entries range).filteredPoliciesReport.filter
              (fun p => !p.paidToInsurer)).map
            (fun p => numOrZero p.commission)).sum
    ∧ (financialReport policies entries range).totalUnpaidToInsurer
        = (((financialReport policies entries range).filteredPoliciesReport.filter
              (fun p => !p.paidToInsurer)).map
            (fun p => numOrZero p.totalAmount)).sum
    ∧ (financialReport policies entries range).amountDueToInsurer
        = (financialReport policies entries range).totalUnpaidToInsurer
          - (financialReport policies entries range).commissionNotPaidToInsurer := by
  refine ⟨?_, ?_, ?_, ?_, ?_, ?_, ?_, rfl⟩
  · intro p
    show p ∈ reportPolicies policies range ↔ _
    cases range with
    | none => simp [reportPolicies]
    | some se =>
        obtain ⟨s, e⟩ := se
        rw [reportPolicies, List.mem_filter]
        refine and_congr Iff.rfl ?_
        cases hc : p.createdAt <;> simp [hc]
  · intro it
    show it ∈ reportEntries entries range ↔ _
    cases range with
    | none => simp [reportEntries]
    | some se =>
        obtain ⟨s, e⟩ := se
        rw [reportEntries, List.mem_filter]
        refine and_congr Iff.rfl ?_
        unfold entryEffTime
        cases hc : it.createdAt with
        | some t => simp [hc]
        | none => cases hd : it.date <;> simp [hc, hd]
  · show List.foldl _ 0 _ = _
    rw [foldl_add_map, zero_add]; rfl
  · show List.foldl _ 0 _ = _
    rw [foldl_add_map, zero_add]; rfl
  · show List.foldl _ 0 _ = _
    rw [foldl_add_map, zero_add]; rfl
  · show List.foldl _ 0 _ = _
    rw [foldl_add_map, zero_add, sum_map_ite]; rfl
  · show List.foldl _ 0 _ = _
    rw [foldl_add_map, zero_add, sum_map_ite]; rfl

/-! ### The Customer Deriver (`CustomerManagement`'s `uniqueCustomers` fold) -/

/-- The lightweight reference pushed onto `associatedPolicies`. -/
structure PolicyRef where
  id : String
  policyNumber : String
  policyType : String
  totalAmount : Option ℚ
  policyDate : Option Nat
deriving DecidableEq, Repr

/-- One derived customer row (the accumulator object per idNumber). -/
structure CustomerRow where
  idNumber : String
  firstName : String
  lastName : String
  phoneNumber : String
  address : String
  city : String
  postalCode : String
  policiesCount : Nat
  totalPolicyValue : ℚ
  associatedPolicies : List PolicyRef
deriving DecidableEq, Repr

def refOf (p : Policy) : PolicyRef :=
  ⟨p.id, p.policyNumber, p.policyType, p.totalAmount, p.policyDate⟩

/-- The guard `policy.customer && policy.customer.idNumber`: the customer's
idNumber when the customer is present and the idNumber non-empty (truthy). -/
def validId (p : Policy) : Option String :=
  match p.customer with
  | some c => if c.idNumber = "" then none else some c.idNumber
  | none => none

/-- The fresh accumulator created on first sight of an idNumber: identity
fields copied from that first policy's customer, zero counters. -/
def initRow (c : Customer) : CustomerRow :=
  ⟨c.idNumber, c.firstName, c.lastName, c.phoneNumber, c.address, c.city,
    c.postalCode, 0, 0, []⟩

/-- Models `policiesCount++`, `totalPolicyValue += parseFloat(totalAmount) || 0`,
`associatedPolicies.push(...)`. -/
def bumpRow (p : Policy) (r : CustomerRow) : CustomerRow :=
  { r with
    policiesCount := r.policiesCount + 1
    totalPolicyValue := r.totalPolicyValue + numOrZero p.totalAmount
    associatedPolicies := r.associatedPolicies ++ [refOf p] }

/-- One step of the `uniqueCustomers` reduce (src/unnamed/part_000, lines
834-861): skip the policy unless it has a customer with a non-empty
idNumber; create the accumulator if the idNumber is new (appended, matching
object-key insertion order for the non-integer-like keys this view holds);
then bump the (unique) row carrying that idNumber. -/
def addToAcc (acc : List CustomerRow) (p : Policy) : List CustomerRow :=
  match p.customer with
  | none => acc
  | some c =>
      if c.idNumber = "" then acc
      else
        let acc1 := if acc.any (fun r => r.idNumber == c.idNumber) then acc
                    else acc ++ [initRow c]
        acc1.map (fun r => if r.idNumber == c.idNumber then bumpRow p r else r)

/-- Models the result of Object.values of the reduce accumulator. -/
def customersList (P : List Policy) : List CustomerRow := P.foldl addToAcc []

/-- Accumulate the distinct valid idNumbers in first-appearance order. -/
def collectId (ids : List String) (p : Policy) : List String :=
  match validId p with
  | some i => if i ∈ ids then ids else ids ++ [i]
  | none => ids

/-- The distinct non-empty `customer.idNumber` values of `P`, in
first-appearance order. -/
def derivedIds (P : List Policy) : List String := P.foldl collectId []

/-- Does `p` carry idNumber `i`? -/
def policyHasId (i : String) (p : Policy) : Bool := validId p == some i

/-- Number of policies in `P` carrying idNumber `i`. -/
def countId (P : List Policy) (i : String) : Nat := P.countP (policyHasId i)

/-- Sum of the parsed `totalAmount`s of the policies carrying `i`. -/
def sumId (P : List Policy) (i : String) : ℚ :=
  ((P.filter (policyHasId i)).map (fun p => numOrZero p.totalAmount)).sum

/-- The references of the policies carrying `i`, in order. -/
def refsId (P : List Policy) (i : String) : List PolicyRef :=
  (P.filter (policyHasId i)).map refOf

/-- The embedded customer of the first policy in `P` carrying `i`. -/
def firstCustomerWith (P : List Policy) (i : String) : Option Customer :=
  P.findSome? (fun p => if validId p = some i then p.customer else none)

/-- The row the deriver should produce for idNumber `i`. -/
def mkRow (P : List Policy) (i : String) : CustomerRow :=
  match firstCustomerWith P i with
  | some c =>
      { idNumber := i, firstName := c.firstName, lastName := c.lastName
        phoneNumber := c.phoneNumber, address := c.address, city := c.city
        postalCode := c.postalCode, policiesCount := countId P i
        totalPolicyValue := sumId P i, associatedPolicies := refsId P i }
  | none =>
      { idNumber := i, firstName := "", lastName := "", phoneNumber := ""
        address := "", city := "", postalCode := "", policiesCount := countId P i
        totalPolicyValue := sumId P i, associatedPolicies := refsId P i }

theorem mkRow_idNumber (P : List Policy) (i : String) : (mkRow P i).idNumber = i := by
  unfold mkRow
  cases firstCustomerWith P i <;> rfl

theorem validId_some_elim {p : Policy} {j : String} (h : validId p = some j) :
    ∃ c, p.customer = some c ∧ c.idNumber = j ∧ j ≠ "" := by
  unfold validId at h
  cases hc : p.customer with
  | none => simp [hc] at h
  | some c =>
      simp only [hc] at h
      by_cases he : c.idNumber = ""
      · simp [he] at h
      · simp only [if_neg he, Option.some.injEq] at h
        exact ⟨c, rfl, h, h ▸ he⟩

theorem addToAcc_of_none {p : Policy} (h : validId p = none) (acc : List CustomerRow) :
    addToAcc acc p = acc := by
  unfold addToAcc
  unfold validId at h
  cases hc : p.customer with
  | none => simp only [hc]
  | some c =>
      simp only [hc] at h
      by_cases he : c.idNumber = ""
      · simp only [hc, if_pos he]
      · simp [he] at h

theorem customersList_append (P : List Policy) (p : Policy) :
    customersList (P ++ [p]) = addToAcc (customersList P) p := by
  unfold customersList
  rw [List.foldl_append]
  rfl

theorem derivedIds_append (P : List Policy) (p : Policy) :
    derivedIds (P ++ [p]) = collectId (derivedIds P) p := by
  unfold derivedIds
  rw [List.foldl_append]
  rfl

theorem mem_collectId (ids : List String) (p : Policy) (i : String) :
    i ∈ collectId ids p ↔ i ∈ ids ∨ validId p = some i := by
  unfold collectId
  cases hv : validId p with
  | none => simp
  | some j =>
      by_cases hj : j ∈ ids
      · simp only [if_pos hj, Option.some.injEq]
        constructor
        · exact fun h => Or.inl h
        · rintro (h | h)
          · exact h
          · exact h ▸ hj
      · simp only [if_neg hj, List.mem_append, List.mem_singleton, Option.some.injEq]
        exact or_congr Iff.rfl ⟨fun h => h.symm, fun h => h.symm⟩

theorem mem_foldl_collectId :
    ∀ (P : List Policy) (ids : List String) (i : String),
      i ∈ P.foldl collectId ids ↔ i ∈ ids ∨ ∃ p, p ∈ P ∧ validId p = some i := by
  intro P
  induction P with
  | nil => intro ids i; simp
  | cons q Q ih =>
      intro ids i
      rw [List.foldl_cons, ih, mem_collectId]
      constructor
      · rintro ((h | h) | ⟨p, hp, hv⟩)
        · exact Or.inl h
        · exact Or.inr ⟨q, List.mem_cons_self q Q, h⟩
        · exact Or.inr ⟨p, List.mem_cons_of_mem q hp, hv⟩
      · rintro (h | ⟨p, hp, hv⟩)
        · exact Or.inl (Or.inl h)
        · rcases List.mem_cons.mp hp with hq | hQ
          · exact Or.inl (Or.inr (hq ▸ hv))
          · exact Or.inr ⟨p, hQ, hv⟩

theorem mem_derivedIds (P : List Policy) (i : String) :
    i ∈ derivedIds P ↔ ∃ p, p ∈ P ∧ validId p = some i := by
  rw [derivedIds, mem_foldl_collectId]
  simp

theorem nodup_foldl_collectId :
    ∀ (P : List Policy) (ids : List String), ids.Nodup → (P.foldl collectId ids).Nodup := by
  intro P
  induction P with
  | nil => intro ids h; exact h
  | cons q Q ih =>
      intro ids h
      rw [List.foldl_cons]
      apply ih
      cases hv : validId q with
      | none => simp only [collectId, hv]; exact h
      | some j =>
          simp only [collectId, hv]
          by_cases hj : j ∈ ids
          · rw [if_pos hj]; exact h
          · rw [if_neg hj]
            rw [List.nodup_append]
            exact ⟨h, List.nodup_singleton j, by
              intro a ha hb
              rw [List.mem_singleton] at hb
              exact hj (hb ▸ ha)⟩

theorem nodup_derivedIds (P : List Policy) : (derivedIds P).Nodup :=
  nodup_foldl_collectId P [] List.nodup_nil

theorem countId_append (P : List Policy) (p : Policy) (i : String) :
    countId (P ++ [p]) i = countId P i + (if validId p = some i then 1 else 0) := by
  unfold countId
  rw [List.countP_append]
  congr 1
  by_cases h : validId p = some i
  · simp [policyHasId, h]
  · simp [policyHasId, h]

theorem filter_hasId_append (P : List Policy) (p : Policy) (i : String) :
    (P ++ [p]).filter (policyHasId i)
      = P.filter (policyHasId i) ++ (if validId p = some i then [p] else []) := by
  rw [List.filter_append]
  congr 1
  by_cases h : validId p = some i
  · simp [policyHasId, h]
  · simp [policyHasId, h]

theorem sumId_append (P : List Policy) (p : Policy) (i : String) :
    sumId (P ++ [p]) i
      = sumId P i + (if validId p = some i then numOrZero p.totalAmount else 0) := by
  unfold sumId
  rw [filter_hasId_append, List.map_append, List.sum_append]
  congr 1
  by_cases h : validId p = some i <;> simp [h]

theorem refsId_append (P : List Policy) (p : Policy) (i : String) :
    refsId (P ++ [p]) i = refsId P i ++ (if validId p = some i then [refOf p] else []) := by
  unfold refsId
  rw [filter_hasId_append, List.map_append]
  congr 1
  by_cases h : validId p = some i <;> simp [h]

theorem firstCustomerWith_append (P : List Policy) (p : Policy) (i : String) :
    firstCustomerWith (P ++ [p]) i
      = match firstCustomerWith P i with
        | some c => some c
        | none => if validId p = some i then p.customer else none := by
  unfold firstCustomerWith
  induction P with
  | nil =>
      show List.findSome? _ [p] = _
      rw [List.findSome?_cons]
      cases hp : (if validId p = some i then p.customer else none) <;> simp [hp]
  | cons q Q ih =>
      rw [List.cons_append, List.findSome?_cons, List.findSome?_cons]
      cases hq : (if validId q = some i then q.customer else none) with
      | some c => rfl
      | none => exact ih

theorem countId_of_not_mem {P : List Policy} {i : String} (h : i ∉ derivedIds P) :
    countId P i = 0 := by
  rw [countId, List.countP_eq_zero]
  intro p hp
  rw [mem_derivedIds] at h
  push_neg at h
  intro hb
  rw [policyHasId, beq_iff_eq] at hb
  exact h p hp hb

theorem filter_hasId_of_not_mem {P : List Policy} {i : String} (h : i ∉ derivedIds P) :
    P.filter (policyHasId i) = [] := by
  rw [List.filter_eq_nil_iff]
  intro p hp
  rw [mem_derivedIds] at h
  push_neg at h
  intro hb
  rw [policyHasId, beq_iff_eq] at hb
  exact h p hp hb

theorem firstCustomerWith_of_not_mem {P : List Policy} {i : String}
    (h : i ∉ derivedIds P) : firstCustomerWith P i = none := by
  rw [firstCustomerWith, List.findSome?_eq_none_iff]
  intro p hp
  rw [mem_derivedIds] at h
  push_neg at h
  rw [if_neg (h p hp)]

theorem firstCustomerWith_of_mem {P : List Policy} {i : String}
    (h : i ∈ derivedIds P) : ∃ c, firstCustomerWith P i = some c := by
  cases hf : firstCustomerWith P i with
  | some c => exact ⟨c, rfl⟩
  | none =>
      rw [firstCustomerWith, List.findSome?_eq_none_iff] at hf
      rw [mem_derivedIds] at h
      obtain ⟨p, hp, hv⟩ := h
      have := hf p hp
      rw [if_pos hv] at this
      obtain ⟨c, hc, -, -⟩ := validId_some_elim hv
      rw [hc] at this
      exact absurd this (by simp)

theorem mkRow_append_of_ne (P : List Policy) (p : Policy) (i : String)
    (h : ¬ validId p = some i) : mkRow (P ++ [p]) i = mkRow P i := by
  unfold mkRow
  rw [firstCustomerWith_append]
  cases hf : firstCustomerWith P i with
  | some c =>
      simp only [hf, countId_append, sumId_append, refsId_append, if_neg h,
        add_zero, List.append_nil]
  | none =>
      simp only [hf, if_neg h, countId_append, sumId_append, refsId_append,
        add_zero, List.append_nil]

theorem mkRow_append_of_mem (P : List Policy) (p : Policy) (j : String)
    (hv : validId p = some j) (hj : j ∈ derivedIds P) :
    mkRow (P ++ [p]) j = bumpRow p (mkRow P j) := by
  obtain ⟨c0, hc0⟩ := firstCustomerWith_of_mem hj
  unfold mkRow
  rw [firstCustomerWith_append, hc0]
  simp only [countId_append, sumId_append, refsId_append, if_pos hv]
  rfl

theorem mkRow_append_of_new (P : List Policy) (p : Policy) (j : String) (c : Customer)
    (hv : validId p = some j) (hc : p.customer = some c) (hcj : c.idNumber = j)
    (hj : j ∉ derivedIds P) :
    mkRow (P ++ [p]) j = bumpRow p (initRow c) := by
  have hf : firstCustomerWith P j = none := firstCustomerWith_of_not_mem hj
  have h0 : sumId P j = 0 := by
    rw [sumId, filter_hasId_of_not_mem hj]; rfl
  have hr : refsId P j = [] := by
    rw [refsId, filter_hasId_of_not_mem hj]; rfl
  unfold mkRow
  rw [firstCustomerWith_append, hf, if_pos hv, hc]
  simp only [countId_append, sumId_append, refsId_append, if_pos hv,
    countId_of_not_mem hj, h0, hr, Nat.zero_add, zero_add, List.nil_append]
  unfold bumpRow initRow
  simp only [hcj, Nat.zero_add, zero_add, List.nil_append]

theorem any_map_mkRow_iff (P : List Policy) (ids : List String) (j : String) :
    ((ids.map (mkRow P)).any (fun r => r.idNumber == j)) = true ↔ j ∈ ids := by
  rw [List.any_eq_true]
  constructor
  · rintro ⟨r, hr, hb⟩
    obtain ⟨i, hi, rfl⟩ := List.mem_map.mp hr
    rw [mkRow_idNumber, beq_iff_eq] at hb
    exact hb ▸ hi
  · intro hj
    exact ⟨mkRow P j, List.mem_map_of_mem _ hj, by
      rw [mkRow_idNumber]; exact beq_self_eq_true j⟩

/-- The deriver's fold produces exactly one row per distinct valid idNumber,
in first-appearance order, and each row is the canonical `mkRow`. -/
theorem customersList_eq (P : List Policy) :
    customersList P = (derivedIds P).map (mkRow P) := by
  induction P using List.reverseRecOn with
  | nil => rfl
  | append_singleton P p ih =>
      rw [customersList_append, ih, derivedIds_append]
      cases hv : validId p with
      | none =>
          rw [addToAcc_of_none hv]
          simp only [collectId, hv]
          refine List.map_congr_left (fun i _ => ?_)
          exact (mkRow_append_of_ne P p i (by rw [hv]; simp)).symm
      | some j =>
          obtain ⟨c, hc, hcj, hne⟩ := validId_some_elim hv
          simp only [collectId, hv]
          unfold addToAcc
          rw [hc]
          simp only [hcj]
          rw [if_neg hne]
          by_cases hj : j ∈ derivedIds P
          · rw [if_pos ((any_map_mkRow_iff P (derivedIds P) j).mpr hj), if_pos hj,
              List.map_map]
            refine List.map_congr_left (fun i hi => ?_)
            show (fun r => if r.idNumber == j then bumpRow p r else r) (mkRow P i) = _
            by_cases hij : i = j
            · subst hij
              simp only [mkRow_idNumber]
              rw [if_pos (beq_self_eq_true i)]
              exact (mkRow_append_of_mem P p i hv hj).symm
            · simp only [mkRow_idNumber]
              rw [if_neg (by simp [hij])]
              exact (mkRow_append_of_ne P p i (by rw [hv]; simp [Ne.symm hij])).symm
          · rw [if_neg (by
                intro ha
                exact hj ((any_map_mkRow_iff P (derivedIds P) j).mp ha)),
              if_neg hj, List.map_append, List.map_append, List.map_map]
            congr 1
            · refine List.map_congr_left (fun i hi => ?_)
              show (fun r => if r.idNumber == j then bumpRow p r else r) (mkRow P i) = _
              have hij : i ≠ j := fun h => hj (h ▸ hi)
              simp only [mkRow_idNumber]
              rw [if_neg (by simp [hij])]
              exact (mkRow_append_of_ne P p i (by rw [hv]; simp [Ne.symm hij])).symm
            · show [if (initRow c).idNumber == j then bumpRow p (initRow c) else initRow c] = _
              have : (initRow c).idNumber = j := hcj
              rw [List.map_singleton]
              rw [show (initRow c).idNumber = j from hcj]
              rw [if_pos (beq_self_eq_true j)]
              exact congrArg (fun x => [x]) (mkRow_append_of_new P p j c hv hc hcj hj).symm

theorem customersList_map_idNumber (P : List Policy) :
    (customersList P).map CustomerRow.idNumber = derivedIds P := by
  rw [customersList_eq, List.map_map]
  have h : (derivedIds P).map (CustomerRow.idNumber ∘ mkRow P)
      = (derivedIds P).map (fun i => i) :=
    List.map_congr_left (fun i _ => mkRow_idNumber P i)
  rw [h, List.map_id_fun']
  rfl

/-! Scenario data of the spec: three policies, idNumbers A1, A1, B2 with
amounts 100, 50, 30. -/

def scenarioCustomerA : Customer :=
  ⟨"Anna", "Petrova", "111", "A1", "Main 1", "Sofia", "1000"⟩

def scenarioCustomerB : Customer :=
  ⟨"Boris", "Ivanov", "222", "B2", "Main 2", "Varna", "9000"⟩

def scenarioPolicyA1 : Policy :=
  ⟨"p1", "New Policy", none, none, some 100, none, "PN-1", "", "",
    false, false, some scenarioCustomerA, none⟩

def scenarioPolicyA2 : Policy :=
  ⟨"p2", "New Policy", none, none, some 50, none, "PN-2", "", "",
    false, false, some scenarioCustomerA, none⟩

def scenarioPolicyB : Policy :=
  ⟨"p3", "New Policy", none, none, some 30, none, "PN-3", "", "",
    false, false, some scenarioCustomerB, none⟩

def scenarioRowA1 : CustomerRow :=
  ⟨"A1", "Anna", "Petrova", "111", "Main 1", "Sofia", "1000", 2, 150,
    [refOf scenarioPolicyA1, refOf scenarioPolicyA2]⟩

def scenarioRowB2 : CustomerRow :=
  ⟨"B2", "Boris", "Ivanov", "222", "Main 2", "Varna", "9000", 1, 30,
    [refOf scenarioPolicyB]⟩

/-- C2: the Customer Deriver yields exactly one row per distinct non-empty
`customer.idNumber` of `P` (policies lacking a customer or an idNumber are
skipped): the row idNumbers are exactly the distinct valid idNumbers, without
duplicates; each row counts the policies carrying its idNumber, sums their
parsed `totalAmount`s (unparseable contributing 0), lists their references,
and takes its identity fields from the first policy encountered with that
idNumber.  On the spec's scenario `[A1:100, A1:50, B2:30]` it yields the two
rows A1 (count 2, value 150) and B2 (count 1, value 30). -/
theorem customerDeriver_correct :
    (∀ P : List Policy,
        (customersList P).length = (derivedIds P).length
      ∧ ((customersList P).map CustomerRow.idNumber).Nodup
      ∧ (∀ i, i ∈ (customersList P).map CustomerRow.idNumber ↔ i ∈ derivedIds P)
      ∧ (∀ r ∈ customersList P,
            r.policiesCount = countId P r.idNumber
          ∧ r.totalPolicyValue = sumId P r.idNumber
          ∧ r.associatedPolicies = refsId P r.idNumber
          ∧ ∃ c, firstCustomerWith P r.idNumber = some c
              ∧ r.firstName = c.firstName ∧ r.lastName = c.lastName
              ∧ r.phoneNumber = c.phoneNumber ∧ r.address = c.address
              ∧ r.city = c.city ∧ r.postalCode = c.postalCode))
    ∧ customersList [scenarioPolicyA1, scenarioPolicyA2, scenarioPolicyB]
        = [scenarioRowA1, scenarioRowB2] := by
  constructor
  · intro P
    refine ⟨?_, ?_, ?_, ?_⟩
    · rw [customersList_eq, List.length_map]
    · rw [customersList_map_idNumber]; exact nodup_derivedIds P
    · intro i; rw [customersList_map_idNumber]
    · intro r hr
      rw [customersList_eq] at hr
      obtain ⟨i, hi, rfl⟩ := List.mem_map.mp hr
      obtain ⟨c, hc⟩ := firstCustomerWith_of_mem hi
      rw [mkRow_idNumber]
      unfold mkRow
      rw [hc]
      exact ⟨rfl, rfl, rfl, c, rfl, rfl, rfl, rfl, rfl, rfl, rfl⟩
  · simp +decide [customersList, addToAcc, initRow, bumpRow, refOf, numOrZero,
      scenarioPolicyA1, scenarioPolicyA2, scenarioPolicyB,
      scenarioCustomerA, scenarioCustomerB, scenarioRowA1, scenarioRowB2]
    norm_num

/-! ### The Mutation Gateway: add / update / delete -/

/-- Numeric value of a digit run (most significant first). -/
def digitsVal (ds : List Char) : Nat := ds.foldl (fun n c => n * 10 + (c.toNat - 48)) 0

/-- Models `parseFloat` on the decimal fragment this UI feeds it (the value of a
`type="number"`/`type="date"` input, or free text): an optional sign, then
the longest prefix of digits with at most one decimal point; `none` models
the `NaN` result when no digit is consumed.  (Exponents, `Infinity` and
leading whitespace are outside this fragment.) -/
def jsParseFloat (s : String) : Option ℚ :=
  let signed : ℚ × List Char :=
    match s.data with
    | '-' :: t => (-1, t)
    | '+' :: t => (1, t)
    | cs => (1, cs)
  let ip := signed.2.takeWhile Char.isDigit
  let rest := signed.2.dropWhile Char.isDigit
  let fp :=
    match rest with
    | '.' :: t => t.takeWhile Char.isDigit
    | _ => []
  if ip.isEmpty && fp.isEmpty then none
  else some (signed.1 * ((digitsVal ip : ℚ) + (digitsVal fp : ℚ) / (10 : ℚ) ^ fp.length))

/-- The `serverTimestamp()` sentinel, replaced by the store's clock at write
time. -/
inductive StampField
  | server
deriving DecidableEq, Repr

/-- The document payload sent by `addDoc`/`updateDoc` for a policy.
`totalAmount` is `parseFloat(totalAmount)` (so it can be `NaN` = `none`);
`commission` is `parseFloat(commission) || 0` (always a number);
`createdAt` is the server sentinel for creates and absent for updates. -/
structure PolicyDoc where
  policyType : String
  policyDate : String
  validUntil : String
  totalAmount : Option ℚ
  commission : Option ℚ
  policyNumber : String
  vehicleNumber : String
  insuranceType : String
  paidByCustomer : Bool
  paidToInsurer : Bool
  customer : Customer
  createdAt : Option StampField
deriving DecidableEq, Repr

/-- The Add Policy form state (raw input strings plus the two checkboxes). -/
structure AddPolicyForm where
  policyType : String
  policyDate : String
  validUntil : String
  totalAmount : String
  commission : String
  policyNumber : String
  vehicleNumber : String
  insuranceType : String
  paidByCustomer : Bool
  paidToInsurer : Bool
  firstName : String
  lastName : String
  phoneNumber : String
  idNumber : String
  address : String
  city : String
  postalCode : String
deriving DecidableEq, Repr

/-- What one call of `handleAddPolicy` did: the create requests issued to
the store and the modal message shown on a precondition failure. -/
structure AddPolicyOutcome where
  requests : List PolicyDoc
  errorMsg : Option String
deriving DecidableEq, Repr

def requiredFieldsMsg : String :=
  "Please fill in all required fields: Policy Number, Total Amount, Policy Date, Valid Until, Customer First Name, Customer Last Name."

def dbNotReadyMsg : String :=
  "Error: Database not ready or user not authenticated. Please log in."

/-- The `addDoc` payload built by `handleAddPolicy`. -/
def mkPolicyDoc (f : AddPolicyForm) : PolicyDoc :=
  { policyType := f.policyType
    policyDate := f.policyDate
    validUntil := f.validUntil
    totalAmount := jsParseFloat f.totalAmount
    commission := some ((jsParseFloat f.commission).getD 0)
    policyNumber := f.policyNumber
    vehicleNumber := f.vehicleNumber
    insuranceType := f.insuranceType
    paidByCustomer := f.paidByCustomer
    paidToInsurer := f.paidToInsurer
    customer := ⟨f.firstName, f.lastName, f.phoneNumber, f.idNumber, f.address, f.city,
      f.postalCode⟩
    createdAt := some StampField.server }

/-- The handler `handleAddPolicy` (src/unnamed/part_000, lines 1104-1159): bail out when
the store is not ready; raise the validation modal when any of the six
required fields is empty (falsy), issuing no create; otherwise issue exactly
one create whose payload coerces the numeric fields. -/
def handleAddPolicy (ready : Bool) (f : AddPolicyForm) : AddPolicyOutcome :=
  if ready = false then ⟨[], some dbNotReadyMsg⟩
  else if f.policyNumber = "" ∨ f.totalAmount = "" ∨ f.policyDate = "" ∨ f.validUntil = ""
      ∨ f.firstName = "" ∨ f.lastName = "" then ⟨[], some requiredFieldsMsg⟩
  else ⟨[mkPolicyDoc f], none⟩

/-- The Edit Policy modal's state handed to `handleUpdatePolicy`. -/
structure UpdatePolicyForm where
  id : String
  policyType : String
  policyDate : String
  validUntil : String
  totalAmount : String
  commission : String
  policyNumber : String
  vehicleNumber : String
  insuranceType : String
  paidByCustomer : Bool
  paidToInsurer : Bool
  customer : Customer
deriving DecidableEq, Repr

/-- The `updateDoc` payload built by `handleUpdatePolicy` (no `createdAt`). -/
def mkUpdateDoc (u : UpdatePolicyForm) : PolicyDoc :=
  { policyType := u.policyType
    policyDate := u.policyDate
    validUntil := u.validUntil
    totalAmount := jsParseFloat u.totalAmount
    commission := some ((jsParseFloat u.commission).getD 0)
    policyNumber := u.policyNumber
    vehicleNumber := u.vehicleNumber
    insuranceType := u.insuranceType
    paidByCustomer := u.paidByCustomer
    paidToInsurer := u.paidToInsurer
    customer := u.customer
    createdAt := none }

inductive UpdateOutcome
  | precondError (msg : String)
  | updated (id : String) (doc : PolicyDoc)
deriving DecidableEq, Repr

/-- The handler `handleUpdatePolicy` (src/unnamed/part_000, lines 1162-1201): bail out
when the store is not ready or the id is missing; otherwise replace the
document wholesale, coercing the numeric fields; no other validation. -/
def handleUpdatePolicy (ready : Bool) (u : UpdatePolicyForm) : UpdateOutcome :=
  if ready = false ∨ u.id = "" then
    .precondError "Error: Database not ready or policy ID missing."
  else .updated u.id (mkUpdateDoc u)

/-- An update form whose totalAmount does not parse as a number. -/
def badUpdateForm : UpdatePolicyForm :=
  ⟨"pol-1", "New Policy", "2024-01-01", "2025-01-01", "abc", "", "PN-9", "", "",
    false, false, ⟨"Anna", "Petrova", "", "A1", "", "", ""⟩⟩

/-- C5 counterexample: `handleUpdatePolicy` performs no numeric validation,
so the update with totalAmount `"abc"` is issued successfully and the stored
`totalAmount` is `NaN` (`none`) — a successfully stored policy with a
non-numeric `totalAmount`. -/
theorem updatePolicy_nonnumeric_total_counterexample :
    handleUpdatePolicy true badUpdateForm
        = UpdateOutcome.updated "pol-1" (mkUpdateDoc badUpdateForm)
      ∧ (mkUpdateDoc badUpdateForm).totalAmount = none := by
  constructor
  · rw [handleUpdatePolicy, if_neg (by simp [badUpdateForm])]
    rfl
  · show jsParseFloat "abc" = none
    decide

/-- C5 (amended): every create payload of `handleAddPolicy` and every update
payload of `handleUpdatePolicy` stores `commission` as the numeric
`parseFloat(commission) || 0` (always a number), and stores `totalAmount` as
`parseFloat(totalAmount)` — numeric exactly when the input parses as a
float; a non-empty unparseable `totalAmount` passes `addPolicy`'s emptiness
validation and is stored as the non-numeric `NaN` (and `updatePolicy`
validates nothing beyond the id). -/
theorem storedAmounts_coerced :
    (∀ (ready : Bool) (f : AddPolicyForm) (d : PolicyDoc),
        d ∈ (handleAddPolicy ready f).requests →
          d.commission = some ((jsParseFloat f.commission).getD 0)
        ∧ d.commission.isSome = true
        ∧ d.totalAmount = jsParseFloat f.totalAmount)
    ∧ (∀ (ready : Bool) (u : UpdatePolicyForm) (i : String) (d : PolicyDoc),
        handleUpdatePolicy ready u = UpdateOutcome.updated i d →
          d.commission = some ((jsParseFloat u.commission).getD 0)
        ∧ d.commission.isSome = true
        ∧ d.totalAmount = jsParseFloat u.totalAmount) := by
  constructor
  · intro ready f d hd
    unfold handleAddPolicy at hd
    by_cases hr : ready = false
    · rw [if_pos hr] at hd
      exact absurd hd (by simp)
    · rw [if_neg hr] at hd
      by_cases hv : f.policyNumber = "" ∨ f.totalAmount = "" ∨ f.policyDate = ""
          ∨ f.validUntil = "" ∨ f.firstName = "" ∨ f.lastName = ""
      · rw [if_pos hv] at hd
        exact absurd hd (by simp)
      · rw [if_neg hv] at hd
        have hd' : d = mkPolicyDoc f := by
          simpa using hd
        subst hd'
        exact ⟨rfl, rfl, rfl⟩
  · intro ready u i d hu
    unfold handleUpdatePolicy at hu
    by_cases hp : ready = false ∨ u.id = ""
    · rw [if_pos hp] at hu
      exact absurd hu (by simp)
    · rw [if_neg hp] at hu
      have hd : d = mkUpdateDoc u := by
        injection hu with h1 h2
        exact h2.symm
      subst hd
      exact ⟨rfl, rfl, rfl⟩

/-- C5 witness: the amended theorem evaluated on a concrete create. -/
theorem storedAmounts_coerced_witness :
    (mkPolicyDoc ⟨"New Policy", "2024-01-01", "2025-01-01", "100.5", "x", "PN-1", "", "",
        false, false, "Anna", "Petrova", "", "A1", "", "", ""⟩).commission
      = some ((jsParseFloat "x").getD 0) :=
  (storedAmounts_coerced.1 true
    ⟨"New Policy", "2024-01-01", "2025-01-01", "100.5", "x", "PN-1", "", "",
      false, false, "Anna", "Petrova", "", "A1", "", "", ""⟩
    (mkPolicyDoc ⟨"New Policy", "2024-01-01", "2025-01-01", "100.5", "x", "PN-1", "", "",
      false, false, "Anna", "Petrova", "", "A1", "", "", ""⟩)
    (by rw [handleAddPolicy, if_neg (by simp), if_neg (by simp)]; simp)).1

/-- C7: with the store ready, `handleAddPolicy` raises the validation
message and issues zero create requests when any of the six required fields
is empty; when all six are non-empty it issues exactly one create request,
whose `totalAmount` is the parsed input, whose `commission` is the parsed
input defaulting to 0, and which carries the server-timestamp sentinel. -/
theorem addPolicy_validation (f : AddPolicyForm) :
    ((f.policyNumber = "" ∨ f.totalAmount = "" ∨ f.policyDate = "" ∨ f.validUntil = ""
        ∨ f.firstName = "" ∨ f.lastName = "") →
      (handleAddPolicy true f).requests = []
      ∧ (handleAddPolicy true f).errorMsg = some requiredFieldsMsg)
    ∧ (¬(f.policyNumber = "" ∨ f.totalAmount = "" ∨ f.policyDate = "" ∨ f.validUntil = ""
        ∨ f.firstName = "" ∨ f.lastName = "") →
      (handleAddPolicy true f).requests = [mkPolicyDoc f]
      ∧ (handleAddPolicy true f).requests.length = 1
      ∧ (handleAddPolicy true f).errorMsg = none
      ∧ (mkPolicyDoc f).totalAmount = jsParseFloat f.totalAmount
      ∧ (mkPolicyDoc f).commission = some ((jsParseFloat f.commission).getD 0)
      ∧ (mkPolicyDoc f).createdAt = some StampField.server) := by
  constructor
  · intro hv
    rw [handleAddPolicy, if_neg (by simp), if_pos hv]
    exact ⟨rfl, rfl⟩
  · intro hv
    rw [handleAddPolicy, if_neg (by simp), if_neg hv]
    exact ⟨rfl, rfl, rfl, rfl, rfl, rfl⟩

/-- C7 witness: an empty policyNumber is rejected with no create request,
and a fully filled form issues its one coerced create request. -/
theorem addPolicy_validation_witness :
    ((handleAddPolicy true ⟨"New Policy", "2024-01-01", "2025-01-01", "100", "5", "", "", "",
        false, false, "Anna", "Petrova", "", "A1", "", "", ""⟩).requests = []
      ∧ (handleAddPolicy true ⟨"New Policy", "2024-01-01", "2025-01-01", "100", "5", "", "", "",
          false, false, "Anna", "Petrova", "", "A1", "", "", ""⟩).errorMsg
        = some requiredFieldsMsg)
    ∧ ((handleAddPolicy true ⟨"New Policy", "2024-01-01", "2025-01-01", "100", "5", "PN-1",
          "", "", false, false, "Anna", "Petrova", "", "A1", "", "", ""⟩).requests
        = [mkPolicyDoc ⟨"New Policy", "2024-01-01", "2025-01-01", "100", "5", "PN-1", "", "",
            false, false, "Anna", "Petrova", "", "A1", "", "", ""⟩]) :=
  ⟨(addPolicy_validation _).1 (by simp),
   ((addPolicy_validation _).2 (by simp)).1⟩

/-- The handler `handleDeletePolicy` (src/unnamed/part_000, lines 1281-1309): nothing
happens unless the store is ready and the irreversible-action confirmation
is accepted; on confirmation the policy document with that id is deleted,
then one delete is issued for every ledger entry whose `policyId` equals
the policy's id (the cascade), each removing the document with that entry's
id. -/
def handleDeletePolicy (ready confirmed : Bool) (pid : String)
    (policiesDb : List Policy) (ledgerDb : List LedgerEntry) :
    List Policy × List LedgerEntry :=
  if ready = false then (policiesDb, ledgerDb)
  else if confirmed = false then (policiesDb, ledgerDb)
  else
    let policiesAfter := policiesDb.filter (fun p => !(p.id == pid))
    let related := ledgerDb.filter (fun it => it.policyId == some pid)
    let ledgerAfter := related.foldl
        (fun db it => db.filter (fun x => !(x.id == it.id))) ledgerDb
    (policiesAfter, ledgerAfter)

/-- Folding a sequence of filters is one filter by the conjunction. -/
theorem foldl_filter_all {α β : Type} (g : β → α → Bool) :
    ∀ (es : List β) (init : List α),
      es.foldl (fun db e => db.filter (g e)) init
        = init.filter (fun x => es.all (fun e => g e x)) := by
  intro es
  induction es with
  | nil => intro init; simp
  | cons e es ih =>
      intro init
      rw [List.foldl_cons, ih, List.filter_filter]
      apply List.filter_congr
      intro x _
      rw [List.all_cons]
      exact Bool.and_comm _ _

/-- C6: a confirmed `deletePolicy(pid)` leaves exactly the policies with a
different id and exactly the ledger entries whose `policyId` differs from
`pid` (in particular every entry with a different or null `policyId`, and
every other policy, is unchanged, order included); membership in the result
is characterised accordingly; and without confirmation nothing is deleted.
The store guarantees distinct ledger document ids (`Nodup`). -/
theorem deletePolicy_cascade (pid : String) (policiesDb : List Policy)
    (ledgerDb : List LedgerEntry)
    (hids : (ledgerDb.map LedgerEntry.id).Nodup) :
    (handleDeletePolicy true true pid policiesDb ledgerDb).1
        = policiesDb.filter (fun p => !(p.id == pid))
    ∧ (∀ p, p ∈ (handleDeletePolicy true true pid policiesDb ledgerDb).1
          ↔ p ∈ policiesDb ∧ p.id ≠ pid)
    ∧ (handleDeletePolicy true true pid policiesDb ledgerDb).2
        = ledgerDb.filter (fun it => !(it.policyId == some pid))
    ∧ (∀ it, it ∈ (handleDeletePolicy true true pid policiesDb ledgerDb).2
          ↔ it ∈ ledgerDb ∧ it.policyId ≠ some pid)
    ∧ handleDeletePolicy true false pid policiesDb ledgerDb = (policiesDb, ledgerDb) := by
  have hledger : (handleDeletePolicy true true pid policiesDb ledgerDb).2
      = ledgerDb.filter (fun it => !(it.policyId == some pid)) := by
    show (ledgerDb.filter (fun it => it.policyId == some pid)).foldl
        (fun db it => db.filter (fun x => !(x.id == it.id))) ledgerDb = _
    rw [foldl_filter_all]
    apply List.filter_congr
    intro x hx
    by_cases hpol : x.policyId = some pid
    · have hmem : x ∈ ledgerDb.filter (fun it => it.policyId == some pid) :=
        List.mem_filter.mpr ⟨hx, by simp [hpol]⟩
      have hne : ((ledgerDb.filter (fun it => it.policyId == some pid)).all
          (fun e => !(x.id == e.id))) = false := by
        apply Bool.eq_false_iff.mpr
        intro hall
        rw [List.all_eq_true] at hall
        have hxx := hall x hmem
        simp at hxx
      rw [hne]
      simp [hpol]
    · have hall : (ledgerDb.filter (fun it => it.policyId == some pid)).all
          (fun e => !(x.id == e.id)) = true := by
        rw [List.all_eq_true]
        intro e he
        obtain ⟨heL, hep⟩ := List.mem_filter.mp he
        rw [beq_iff_eq] at hep
        simp only [Bool.not_eq_true']
        rw [beq_eq_false_iff_ne]
        intro hid
        have hxe : x = e := List.inj_on_of_nodup_map hids hx heL hid
        exact hpol (hxe ▸ hep)
      rw [hall]
      simp [hpol]
  refine ⟨rfl, ?_, hledger, ?_, rfl⟩
  · intro p
    show p ∈ policiesDb.filter (fun q => !(q.id == pid)) ↔ _
    rw [List.mem_filter]
    simp
  · intro it
    rw [hledger, List.mem_filter]
    simp

/-- C6 witness: the cascade evaluated on a concrete two-policy store with
three ledger entries, one linked to the deleted policy, one linked
elsewhere, one unlinked. -/
theorem deletePolicy_cascade_witness :
    (handleDeletePolicy true true "p1"
        [⟨"p1", "New Policy", none, none, none, none, "PN-1", "", "", false, false,
          none, none⟩,
         ⟨"p2", "New Policy", none, none, none, none, "PN-2", "", "", false, false,
          none, none⟩]
        [⟨"e1", "Payment", none, none, "", some "p1", none⟩,
         ⟨"e2", "Expense", none, none, "", some "p2", none⟩,
         ⟨"e3", "Payment", none, none, "", none, none⟩]).2
      = [⟨"e2", "Expense", none, none, "", some "p2", none⟩,
         ⟨"e3", "Payment", none, none, "", none, none⟩] :=
  ((deletePolicy_cascade "p1"
      [⟨"p1", "New Policy", none, none, none, none, "PN-1", "", "", false, false,
        none, none⟩,
       ⟨"p2", "New Policy", none, none, none, none, "PN-2", "", "", false, false,
        none, none⟩]
      [⟨"e1", "Payment", none, none, "", some "p1", none⟩,
       ⟨"e2", "Expense", none, none, "", some "p2", none⟩,
       ⟨"e3", "Payment", none, none, "", none, none⟩]
      (by decide)).2.2.1).trans (by decide)

/-! ### The ViewPolicies sort -/

inductive SortDir
  | asc
  | desc
deriving DecidableEq, Repr

inductive SortColumn
  | policyNumber
  | customer
  | policyType
  | totalAmount
  | policyDate
  | validUntil
  | createdAt
deriving DecidableEq, Repr

structure SortState where
  column : SortColumn
  direction : SortDir
deriving DecidableEq, Repr

/-- The handler `handleSort` (src/unnamed/part_000, lines 377-384): re-selecting the
current column flips the direction, selecting another column sets it with
ascending direction. -/
def handleSort (column : SortColumn) (st : SortState) : SortState :=
  if st.column = column then
    { st with direction := if st.direction = SortDir.asc then SortDir.desc else SortDir.asc }
  else { column := column, direction := SortDir.asc }

/-- JS `<` on one character (code-unit order; code points here). -/
def chLt (a b : Char) : Bool := decide (a.toNat < b.toNat)

/-- JS `<` on strings: lexicographic by character. -/
def strLt : List Char → List Char → Bool
  | [], [] => false
  | [], _ :: _ => true
  | _ :: _, [] => false
  | a :: as, b :: bs => if chLt a b then true else if chLt b a then false else strLt as bs

/-- JS `<` on two numbers of which either may be `NaN` (`none`): any
comparison with `NaN` is false. -/
def numLt (x y : Option ℚ) : Bool :=
  match x, y with
  | some a, some b => decide (a < b)
  | _, _ => false

def natLt (x y : Nat) : Bool := decide (x < y)

/-- The date field selected by a date-valued sort column. -/
def dateFieldOf : SortColumn → Policy → Option Nat
  | SortColumn.policyDate, p => p.policyDate
  | SortColumn.validUntil, p => p.validUntil
  | SortColumn.createdAt, p => p.createdAt
  | _, _ => none

/-- Models the key lookup with absence defaulting to zero: an absent date
value is assigned numeric timestamp 0. -/
def dateKey (col : SortColumn) (p : Policy) : Nat := (dateFieldOf col p).getD 0

/-- The composed customer sort key: first name, a space, last name, each
empty when absent, the whole lower-cased. -/
def custKey (p : Policy) : List Char :=
  lowerList ((match p.customer with | some c => c.firstName | none => "") ++ " "
    ++ (match p.customer with | some c => c.lastName | none => ""))

/-- The `if (valA < valB) ... if (valA > valB) ... else tie` skeleton of the
comparator, for a key order `lt`. -/
def ordOf {κ : Type} (lt : κ → κ → Bool) (x y : κ) : Ordering :=
  if lt x y then Ordering.lt else if lt y x then Ordering.gt else Ordering.eq

/-- The key comparison of the sort comparator (src/unnamed/part_000, lines
358-375): the customer column compares the composed lower-cased name, the
three date columns compare numeric timestamps with absent values as 0, the
remaining string columns compare lower-cased, and totalAmount compares
numbers (`NaN` comparing equal to everything). -/
def keyOrd : SortColumn → Policy → Policy → Ordering
  | SortColumn.customer => fun a b => ordOf strLt (custKey a) (custKey b)
  | SortColumn.createdAt => fun a b =>
      ordOf natLt (dateKey SortColumn.createdAt a) (dateKey SortColumn.createdAt b)
  | SortColumn.policyDate => fun a b =>
      ordOf natLt (dateKey SortColumn.policyDate a) (dateKey SortColumn.policyDate b)
  | SortColumn.validUntil => fun a b =>
      ordOf natLt (dateKey SortColumn.validUntil a) (dateKey SortColumn.validUntil b)
  | SortColumn.policyNumber => fun a b =>
      ordOf strLt (lowerList a.policyNumber) (lowerList b.policyNumber)
  | SortColumn.policyType => fun a b =>
      ordOf strLt (lowerList a.policyType) (lowerList b.policyType)
  | SortColumn.totalAmount => fun a b => ordOf numLt a.totalAmount b.totalAmount

/-- The comparator's return value: -1/1 flipped by the direction, 0 on a
tie. -/
def policyCompare (col : SortColumn) (dir : SortDir) (a b : Policy) : Int :=
  match keyOrd col a b with
  | Ordering.lt => if dir = SortDir.asc then -1 else 1
  | Ordering.gt => if dir = SortDir.asc then 1 else -1
  | Ordering.eq => 0

/-- Stable insertion of `x`: before the first element it need not follow. -/
def insertSorted {α : Type} (le : α → α → Bool) (x : α) : List α → List α
  | [] => [x]
  | y :: ys => if le x y then x :: y :: ys else y :: insertSorted le x ys

/-- A stable sort (insertion sort): the model of the engine's stable
`Array.prototype.sort`, placing `a` before `b` whenever the comparator
returns ≤ 0 for the pair in original order. -/
def stableSort {α : Type} (le : α → α → Bool) : List α → List α
  | [] => []
  | x :: xs => insertSorted le x (stableSort le xs)

/-- The sort step of `filteredAndSortedPolicies`. -/
def sortPolicies (col : SortColumn) (dir : SortDir) (l : List Policy) : List Policy :=
  stableSort (fun a b => decide (policyCompare col dir a b ≤ 0)) l

theorem insertSorted_perm {α : Type} (le : α → α → Bool) (x : α) :
    ∀ l : List α, (insertSorted le x l).Perm (x :: l) := by
  intro l
  induction l with
  | nil => exact List.Perm.refl _
  | cons y ys ih =>
      by_cases h : le x y = true
      · rw [insertSorted, if_pos h]
      · rw [insertSorted, if_neg h]
        exact (ih.cons y).trans (List.Perm.swap x y ys)

theorem stableSort_perm {α : Type} (le : α → α → Bool) :
    ∀ l : List α, (stableSort le l).Perm l := by
  intro l
  induction l with
  | nil => exact List.Perm.refl _
  | cons x xs ih =>
      exact (insertSorted_perm le x (stableSort le xs)).trans (ih.cons x)

theorem mem_stableSort {α : Type} (le : α → α → Bool) (l : List α) (y : α) :
    y ∈ stableSort le l ↔ y ∈ l :=
  (stableSort_perm le l).mem_iff

theorem sublist_insertSorted {α : Type} (le : α → α → Bool) (x : α) :
    ∀ l : List α, l.Sublist (insertSorted le x l) := by
  intro l
  induction l with
  | nil => exact List.nil_sublist _
  | cons y ys ih =>
      by_cases h : le x y = true
      · rw [insertSorted, if_pos h]
        exact List.Sublist.cons x (List.Sublist.refl _)
      · rw [insertSorted, if_neg h]
        exact List.Sublist.cons₂ y ih

theorem insertSorted_before {α : Type} (le : α → α → Bool) {a b : α}
    (hab : le a b = true) :
    ∀ l : List α, b ∈ l → [a, b].Sublist (insertSorted le a l) := by
  intro l
  induction l with
  | nil => intro h; exact absurd h (List.not_mem_nil b)
  | cons y ys ih =>
      intro hb
      by_cases h : le a y = true
      · rw [insertSorted, if_pos h]
        exact List.Sublist.cons₂ a (List.singleton_sublist.mpr hb)
      · rw [insertSorted, if_neg h]
        rcases List.mem_cons.mp hb with hby | hbys
        · exact absurd (hby ▸ hab) h
        · exact List.Sublist.cons y (ih hbys)

/-- Pair stability of the stable sort: if the comparator does not order `a`
strictly after `b`, an occurrence of `a` before `b` survives sorting. -/
theorem stableSort_pair {α : Type} (le : α → α → Bool) {a b : α}
    (hab : le a b = true) :
    ∀ l : List α, [a, b].Sublist l → [a, b].Sublist (stableSort le l) := by
  intro l
  induction l with
  | nil => intro h; cases h
  | cons x xs ih =>
      intro h
      cases h with
      | cons _ h' =>
          exact (ih h').trans (sublist_insertSorted le x (stableSort le xs))
      | cons₂ _ h' =>
          exact insertSorted_before le hab (stableSort le xs)
            ((mem_stableSort le xs b).mpr (List.singleton_sublist.mp h'))

theorem insertSorted_mem {α : Type} (le : α → α → Bool) (x : α) (l : List α) (z : α)
    (hz : z ∈ insertSorted le x l) : z = x ∨ z ∈ l :=
  List.mem_cons.mp ((insertSorted_perm le x l).mem_iff.mp hz)

theorem insertSorted_pairwise {α : Type} (le : α → α → Bool) (S : List α)
    (hTot : ∀ x y, le x y = false → le y x = true)
    (hTrans : ∀ a b c, a ∈ S → b ∈ S → c ∈ S →
        le a b = true → le b c = true → le a c = true)
    (x : α) (hx : x ∈ S) :
    ∀ s : List α, (∀ y ∈ s, y ∈ S) → s.Pairwise (fun a b => le a b = true) →
      (insertSorted le x s).Pairwise (fun a b => le a b = true) := by
  intro s
  induction s with
  | nil => intro _ _; simp [insertSorted]
  | cons y ys ih =>
      intro hsub hp
      rw [List.pairwise_cons] at hp
      obtain ⟨hy, hys⟩ := hp
      by_cases hxy : le x y = true
      · rw [insertSorted, if_pos hxy, List.pairwise_cons]
        refine ⟨?_, List.pairwise_cons.mpr ⟨hy, hys⟩⟩
        intro z hz
        rcases List.mem_cons.mp hz with rfl | hzys
        · exact hxy
        · exact hTrans x y z hx (hsub y (List.mem_cons_self y ys))
            (hsub z (List.mem_cons_of_mem y hzys)) hxy (hy z hzys)
      · rw [insertSorted, if_neg hxy, List.pairwise_cons]
        constructor
        · intro z hz
          rcases insertSorted_mem le x ys z hz with hzx | hzys
          · rw [hzx]
            exact hTot x y (Bool.eq_false_iff.mpr hxy)
          · exact hy z hzys
        · exact ih (fun z hz => hsub z (List.mem_cons_of_mem y hz)) hys

theorem stableSort_pairwise_aux {α : Type} (le : α → α → Bool) (S : List α)
    (hTot : ∀ x y, le x y = false → le y x = true)
    (hTrans : ∀ a b c, a ∈ S → b ∈ S → c ∈ S →
        le a b = true → le b c = true → le a c = true) :
    ∀ l : List α, (∀ y ∈ l, y ∈ S) →
      (stableSort le l).Pairwise (fun a b => le a b = true) := by
  intro l
  induction l with
  | nil => intro _; simp [stableSort]
  | cons x xs ih =>
      intro hsub
      exact insertSorted_pairwise le S hTot hTrans x (hsub x (List.mem_cons_self x xs))
        (stableSort le xs)
        (fun y hy => hsub y (List.mem_cons_of_mem x ((mem_stableSort le xs y).mp hy)))
        (ih (fun y hy => hsub y (List.mem_cons_of_mem x hy)))

/-- With a total comparator that is transitive on the list's elements, the
stable sort produces a pairwise-ordered list. -/
theorem stableSort_pairwise {α : Type} (le : α → α → Bool) (l : List α)
    (hTot : ∀ x y, le x y = false → le y x = true)
    (hTrans : ∀ a b c, a ∈ l → b ∈ l → c ∈ l →
        le a b = true → le b c = true → le a c = true) :
    (stableSort le l).Pairwise (fun a b => le a b = true) :=
  stableSort_pairwise_aux le l hTot hTrans l (fun _ h => h)

/-- When no two elements of `l` are tied, sorting with the flipped
comparator yields exactly the reverse of sorting with the original one. -/
theorem stableSort_flip_reverse {α : Type} (le : α → α → Bool) (l : List α)
    (hTot : ∀ x y, le x y = false → le y x = true)
    (hSltTrans : ∀ a b c, le a b = true → le b a = false →
        le b c = true → le c b = false → le a c = true ∧ le c a = false)
    (hTies : l.Pairwise (fun a b => ¬(le a b = true ∧ le b a = true))) :
    stableSort (fun a b => le b a) l = (stableSort le l).reverse := by
  have hSymmTie : ∀ {a b : α}, ¬(le a b = true ∧ le b a = true)
      → ¬(le b a = true ∧ le a b = true) := fun h hc => h ⟨hc.2, hc.1⟩
  have hStrict : ∀ a ∈ l, ∀ b ∈ l, a ≠ b → ¬(le a b = true ∧ le b a = true) := by
    intro a ha b hb hne
    exact List.Pairwise.forall (fun {x y} h => hSymmTie h) hTies ha hb hne
  have hTrans : ∀ a b c, a ∈ l → b ∈ l → c ∈ l →
      le a b = true → le b c = true → le a c = true := by
    intro a b c ha hb hc hab hbc
    by_cases hac : le a c = true
    · exact hac
    · exfalso
      by_cases haeqb : a = b
      · exact hac (haeqb ▸ hbc)
      by_cases hbeqc : b = c
      · exact hac (hbeqc ▸ hab)
      have hba : le b a = false := by
        by_cases h : le b a = true
        · exact absurd ⟨hab, h⟩ (hStrict a ha b hb haeqb)
        · exact Bool.eq_false_iff.mpr h
      have hcb : le c b = false := by
        by_cases h : le c b = true
        · exact absurd ⟨hbc, h⟩ (hStrict b hb c hc hbeqc)
        · exact Bool.eq_false_iff.mpr h
      exact hac (hSltTrans a b c hab hba hbc hcb).1
  have hTot' : ∀ x y, le y x = false → le x y = true := fun x y h => hTot y x h
  have hTrans' : ∀ a b c, a ∈ l → b ∈ l → c ∈ l →
      le b a = true → le c b = true → le c a = true :=
    fun a b c ha hb hc h1 h2 => hTrans c b a hc hb ha h2 h1
  have hPA : (stableSort le l).Pairwise (fun a b => le a b = true) :=
    stableSort_pairwise le l hTot hTrans
  have hPD : (stableSort (fun a b => le b a) l).Pairwise (fun a b => le b a = true) :=
    stableSort_pairwise (fun a b => le b a) l hTot' hTrans'
  have hTieA : (stableSort le l).Pairwise (fun a b => ¬(le a b = true ∧ le b a = true)) :=
    ((stableSort_perm le l).pairwise_iff (fun {x y} h => hSymmTie h)).mpr hTies
  have hTieD : (stableSort (fun a b => le b a) l).Pairwise
      (fun a b => ¬(le a b = true ∧ le b a = true)) :=
    ((stableSort_perm (fun a b => le b a) l).pairwise_iff (fun {x y} h => hSymmTie h)).mpr hTies
  have hSA : (stableSort le l).Pairwise (fun a b => le a b = true ∧ le b a = false) := by
    refine (hPA.and hTieA).imp ?_
    intro a b h
    refine ⟨h.1, ?_⟩
    by_cases hba : le b a = true
    · exact absurd ⟨h.1, hba⟩ h.2
    · exact Bool.eq_false_iff.mpr hba
  have hSD : (stableSort (fun a b => le b a) l).Pairwise
      (fun a b => le b a = true ∧ le a b = false) := by
    refine (hPD.and hTieD).imp ?_
    intro a b h
    refine ⟨h.1, ?_⟩
    by_cases hba : le a b = true
    · exact absurd ⟨hba, h.1⟩ h.2
    · exact Bool.eq_false_iff.mpr hba
  have hRevA : (stableSort le l).reverse.Pairwise
      (fun a b => le b a = true ∧ le a b = false) := by
    rw [List.pairwise_reverse]
    exact hSA
  have hperm : (stableSort (fun a b => le b a) l).Perm (stableSort le l).reverse :=
    ((stableSort_perm (fun a b => le b a) l).trans (stableSort_perm le l).symm).trans
      ((stableSort le l).reverse_perm).symm
  haveI : IsAntisymm α (fun a b => le b a = true ∧ le a b = false) := ⟨by
    intro a b h1 h2
    exact (Bool.false_ne_true (h2.2 ▸ h1.1)).elim⟩
  exact List.eq_of_perm_of_sorted hperm hSD hRevA

theorem chLt_toNat (a b : Char) : chLt a b = true ↔ a.toNat < b.toNat := by
  simp [chLt]

theorem strLt_asymm : ∀ x y : List Char, strLt x y = true → strLt y x = false := by
  intro x
  induction x with
  | nil =>
      intro y h
      cases y with
      | nil => simp [strLt] at h
      | cons b bs => rfl
  | cons a as ih =>
      intro y h
      cases y with
      | nil => simp [strLt] at h
      | cons b bs =>
          rw [strLt] at h ⊢
          by_cases hab : chLt a b = true
          · have hba : chLt b a = false := by
              rw [chLt_toNat] at hab
              simp [chLt]
              omega
            rw [if_neg (by simp [hba]), if_pos hab]
          · by_cases hba : chLt b a = true
            · rw [if_neg hab, if_pos hba] at h
              exact absurd h (by simp)
            · rw [if_neg hab, if_neg hba] at h
              rw [if_neg hba, if_neg hab]
              exact ih bs h

theorem strLt_trans : ∀ x y z : List Char,
    strLt x y = true → strLt y z = true → strLt x z = true := by
  intro x
  induction x with
  | nil =>
      intro y z hxy hyz
      cases y with
      | nil => simp [strLt] at hxy
      | cons b bs =>
          cases z with
          | nil => simp [strLt] at hyz
          | cons c cs => rfl
  | cons a as ih =>
      intro y z hxy hyz
      cases y with
      | nil => simp [strLt] at hxy
      | cons b bs =>
          cases z with
          | nil => simp [strLt] at hyz
          | cons c cs =>
              rw [strLt] at hxy hyz ⊢
              simp only [chLt] at hxy hyz ⊢
              split_ifs at hxy hyz ⊢
              all_goals try rfl
              all_goals try exact ih bs cs hxy hyz
              all_goals try simp_all
              all_goals omega

theorem numLt_asymm : ∀ x y : Option ℚ, numLt x y = true → numLt y x = false := by
  intro x y h
  cases x with
  | none => simp [numLt] at h
  | some a =>
      cases y with
      | none => simp [numLt] at h
      | some b =>
          simp only [numLt, decide_eq_true_eq] at h
          simp only [numLt, decide_eq_false_iff_not]
          exact not_lt.mpr h.le

theorem numLt_trans : ∀ x y z : Option ℚ,
    numLt x y = true → numLt y z = true → numLt x z = true := by
  intro x y z hxy hyz
  cases x with
  | none => simp [numLt] at hxy
  | some a =>
      cases y with
      | none => simp [numLt] at hxy
      | some b =>
          cases z with
          | none => simp [numLt] at hyz
          | some c =>
              simp only [numLt, decide_eq_true_eq] at hxy hyz ⊢
              exact hxy.trans hyz

theorem natLt_asymm : ∀ x y : Nat, natLt x y = true → natLt y x = false := by
  intro x y h
  simp only [natLt, decide_eq_true_eq] at h
  simp only [natLt, decide_eq_false_iff_not]
  omega

theorem natLt_trans : ∀ x y z : Nat,
    natLt x y = true → natLt y z = true → natLt x z = true := by
  intro x y z h1 h2
  simp only [natLt, decide_eq_true_eq] at h1 h2 ⊢
  omega

theorem ordOf_lt_iff {κ : Type} (lt : κ → κ → Bool) (x y : κ) :
    ordOf lt x y = Ordering.lt ↔ lt x y = true := by
  unfold ordOf
  by_cases h1 : lt x y = true
  · simp [h1]
  · by_cases h2 : lt y x = true <;> simp [h1, h2]

theorem ordOf_gt_iff {κ : Type} (lt : κ → κ → Bool)
    (hAsym : ∀ x y, lt x y = true → lt y x = false) (x y : κ) :
    ordOf lt x y = Ordering.gt ↔ lt y x = true := by
  unfold ordOf
  by_cases h1 : lt x y = true
  · have h2 := hAsym x y h1
    simp [h1, h2]
  · by_cases h2 : lt y x = true <;> simp [h1, h2]

theorem ordOf_eq_iff {κ : Type} (lt : κ → κ → Bool) (x y : κ) :
    ordOf lt x y = Ordering.eq ↔ (lt x y = false ∧ lt y x = false) := by
  unfold ordOf
  by_cases h1 : lt x y = true
  · simp [h1]
  · by_cases h2 : lt y x = true <;> simp [h1, h2]

theorem keyOrd_gt_iff_lt (col : SortColumn) (a b : Policy) :
    keyOrd col a b = Ordering.gt ↔ keyOrd col b a = Ordering.lt := by
  cases col
  case policyNumber =>
    exact (ordOf_gt_iff strLt strLt_asymm _ _).trans (ordOf_lt_iff strLt _ _).symm
  case customer =>
    exact (ordOf_gt_iff strLt strLt_asymm _ _).trans (ordOf_lt_iff strLt _ _).symm
  case policyType =>
    exact (ordOf_gt_iff strLt strLt_asymm _ _).trans (ordOf_lt_iff strLt _ _).symm
  case totalAmount =>
    exact (ordOf_gt_iff numLt numLt_asymm _ _).trans (ordOf_lt_iff numLt _ _).symm
  case policyDate =>
    exact (ordOf_gt_iff natLt natLt_asymm _ _).trans (ordOf_lt_iff natLt _ _).symm
  case validUntil =>
    exact (ordOf_gt_iff natLt natLt_asymm _ _).trans (ordOf_lt_iff natLt _ _).symm
  case createdAt =>
    exact (ordOf_gt_iff natLt natLt_asymm _ _).trans (ordOf_lt_iff natLt _ _).symm

theorem keyOrd_lt_trans (col : SortColumn) (a b c : Policy) :
    keyOrd col a b = Ordering.lt → keyOrd col b c = Ordering.lt →
    keyOrd col a c = Ordering.lt := by
  intro h1 h2
  cases col
  case policyNumber =>
    exact (ordOf_lt_iff strLt _ _).mpr
      (strLt_trans _ _ _ ((ordOf_lt_iff strLt _ _).mp h1) ((ordOf_lt_iff strLt _ _).mp h2))
  case customer =>
    exact (ordOf_lt_iff strLt _ _).mpr
      (strLt_trans _ _ _ ((ordOf_lt_iff strLt _ _).mp h1) ((ordOf_lt_iff strLt _ _).mp h2))
  case policyType =>
    exact (ordOf_lt_iff strLt _ _).mpr
      (strLt_trans _ _ _ ((ordOf_lt_iff strLt _ _).mp h1) ((ordOf_lt_iff strLt _ _).mp h2))
  case totalAmount =>
    exact (ordOf_lt_iff numLt _ _).mpr
      (numLt_trans _ _ _ ((ordOf_lt_iff numLt _ _).mp h1) ((ordOf_lt_iff numLt _ _).mp h2))
  case policyDate =>
    exact (ordOf_lt_iff natLt _ _).mpr
      (natLt_trans _ _ _ ((ordOf_lt_iff natLt _ _).mp h1) ((ordOf_lt_iff natLt _ _).mp h2))
  case validUntil =>
    exact (ordOf_lt_iff natLt _ _).mpr
      (natLt_trans _ _ _ ((ordOf_lt_iff natLt _ _).mp h1) ((ordOf_lt_iff natLt _ _).mp h2))
  case createdAt =>
    exact (ordOf_lt_iff natLt _ _).mpr
      (natLt_trans _ _ _ ((ordOf_lt_iff natLt _ _).mp h1) ((ordOf_lt_iff natLt _ _).mp h2))

theorem policyCompare_asc_le_iff (col : SortColumn) (a b : Policy) :
    policyCompare col SortDir.asc a b ≤ 0 ↔ keyOrd col a b ≠ Ordering.gt := by
  unfold policyCompare
  cases keyOrd col a b <;> simp

theorem policyCompare_desc_le_iff (col : SortColumn) (a b : Policy) :
    policyCompare col SortDir.desc a b ≤ 0 ↔ keyOrd col a b ≠ Ordering.lt := by
  unfold policyCompare
  cases keyOrd col a b <;> simp

theorem policyCompare_eq_zero_iff (col : SortColumn) (dir : SortDir) (a b : Policy) :
    policyCompare col dir a b = 0 ↔ keyOrd col a b = Ordering.eq := by
  unfold policyCompare
  cases keyOrd col a b <;> cases dir <;> simp

theorem leAsc_total (col : SortColumn) : ∀ a b : Policy,
    decide (policyCompare col SortDir.asc a b ≤ 0) = false →
    decide (policyCompare col SortDir.asc b a ≤ 0) = true := by
  intro a b h
  rw [decide_eq_false_iff_not, policyCompare_asc_le_iff, not_not] at h
  rw [decide_eq_true_eq, policyCompare_asc_le_iff]
  rw [(keyOrd_gt_iff_lt col a b).mp h]
  simp

theorem leAsc_slt_trans (col : SortColumn) : ∀ a b c : Policy,
    decide (policyCompare col SortDir.asc a b ≤ 0) = true →
    decide (policyCompare col SortDir.asc b a ≤ 0) = false →
    decide (policyCompare col SortDir.asc b c ≤ 0) = true →
    decide (policyCompare col SortDir.asc c b ≤ 0) = false →
    decide (policyCompare col SortDir.asc a c ≤ 0) = true
      ∧ decide (policyCompare col SortDir.asc c a ≤ 0) = false := by
  intro a b c _ hba _ hcb
  rw [decide_eq_false_iff_not, policyCompare_asc_le_iff, not_not] at hba hcb
  have h1 : keyOrd col a b = Ordering.lt := (keyOrd_gt_iff_lt col b a).mp hba
  have h2 : keyOrd col b c = Ordering.lt := (keyOrd_gt_iff_lt col c b).mp hcb
  have h3 : keyOrd col a c = Ordering.lt := keyOrd_lt_trans col a b c h1 h2
  constructor
  · rw [decide_eq_true_eq, policyCompare_asc_le_iff, h3]
    simp
  · rw [decide_eq_false_iff_not, policyCompare_asc_le_iff, not_not]
    exact (keyOrd_gt_iff_lt col c a).mpr h3

theorem stableSort_congr {α : Type} {le₁ le₂ : α → α → Bool}
    (h : ∀ x y, le₁ x y = le₂ x y) (l : List α) :
    stableSort le₁ l = stableSort le₂ l := by
  have hf : le₁ = le₂ := funext fun x => funext fun y => h x y
  rw [hf]

theorem jsLe_desc_flip (col : SortColumn) : ∀ a b : Policy,
    decide (policyCompare col SortDir.desc a b ≤ 0)
      = decide (policyCompare col SortDir.asc b a ≤ 0) := by
  intro a b
  by_cases h : keyOrd col a b = Ordering.lt
  · have hgt : keyOrd col b a = Ordering.gt := (keyOrd_gt_iff_lt col b a).mpr h
    rw [decide_eq_false (by rw [policyCompare_desc_le_iff]; simp [h]),
      decide_eq_false (by rw [policyCompare_asc_le_iff]; simp [hgt])]
  · have hne : keyOrd col b a ≠ Ordering.gt := fun hc => h ((keyOrd_gt_iff_lt col b a).mp hc)
    rw [decide_eq_true (by rw [policyCompare_desc_le_iff]; exact h),
      decide_eq_true (by rw [policyCompare_asc_le_iff]; exact hne)]

/-- C8 (amended): re-selecting the current sort key flips the direction and
selecting a new key resets to ascending; re-sorting under either direction
keeps exactly the same elements (a permutation); and when no two policies of
the list are tied under the key, the descending order is exactly the reverse
of the ascending one.  (With ties the stable sort keeps their original
relative order in both directions, so the reversal fails — see the
counterexample.) -/
theorem handleSort_toggle_and_reverse (col : SortColumn) (l : List Policy) :
    (∀ st : SortState, st.column = col →
        handleSort col st
          = ⟨col, if st.direction = SortDir.asc then SortDir.desc else SortDir.asc⟩)
    ∧ (∀ st : SortState, st.column ≠ col → handleSort col st = ⟨col, SortDir.asc⟩)
    ∧ (∀ dir : SortDir, (sortPolicies col dir l).Perm l)
    ∧ (l.Pairwise (fun a b => policyCompare col SortDir.asc a b ≠ 0) →
        sortPolicies col SortDir.desc l = (sortPolicies col SortDir.asc l).reverse) := by
  refine ⟨?_, ?_, ?_, ?_⟩
  · rintro ⟨c, d⟩ h
    have h' : c = col := h
    subst h'
    rw [handleSort, if_pos rfl]
  · rintro ⟨c, d⟩ h
    have h' : ¬(c = col) := h
    rw [handleSort, if_neg h']
  · intro dir
    exact stableSort_perm _ l
  · intro hTies
    show stableSort (fun a b => decide (policyCompare col SortDir.desc a b ≤ 0)) l = _
    rw [stableSort_congr (jsLe_desc_flip col) l]
    refine stableSort_flip_reverse
      (fun a b => decide (policyCompare col SortDir.asc a b ≤ 0)) l
      (leAsc_total col) (leAsc_slt_trans col) (List.Pairwise.imp ?_ hTies)
    intro a b hne hc
    obtain ⟨h1, h2⟩ := hc
    rw [decide_eq_true_eq, policyCompare_asc_le_iff] at h1 h2
    apply hne
    rw [policyCompare_eq_zero_iff]
    cases hk : keyOrd col a b
    case lt => exact absurd ((keyOrd_gt_iff_lt col b a).mpr hk) h2
    case eq => rfl
    case gt => exact absurd hk h1

def tiedPolicyA : Policy :=
  ⟨"p1", "New Policy", none, none, none, none, "PN-7", "", "", false, false, none, none⟩

def tiedPolicyB : Policy :=
  ⟨"p2", "New Policy", none, none, none, none, "PN-7", "", "", false, false, none, none⟩

def untiedPolicyC : Policy :=
  ⟨"p3", "New Policy", none, none, none, none, "PN-8", "", "", false, false, none, none⟩

/-- C8 counterexample: re-selecting the policyNumber key flips the direction,
but with two distinct policies tied on the key the descending result is the
same list as the ascending one (stability keeps their original order), not
its reverse. -/
theorem sortToggle_not_reverse_counterexample :
    handleSort SortColumn.policyNumber ⟨SortColumn.policyNumber, SortDir.asc⟩
        = ⟨SortColumn.policyNumber, SortDir.desc⟩
    ∧ sortPolicies SortColumn.policyNumber SortDir.desc [tiedPolicyA, tiedPolicyB]
        ≠ (sortPolicies SortColumn.policyNumber SortDir.asc
            [tiedPolicyA, tiedPolicyB]).reverse := by
  constructor
  · rfl
  · decide

/-- C8 witness: on a two-element list with distinct keys the flipped
direction does produce the exact reverse. -/
theorem handleSort_toggle_witness :
    sortPolicies SortColumn.policyNumber SortDir.desc [tiedPolicyA, untiedPolicyC]
      = (sortPolicies SortColumn.policyNumber SortDir.asc
          [tiedPolicyA, untiedPolicyC]).reverse :=
  (handleSort_toggle_and_reverse SortColumn.policyNumber
    [tiedPolicyA, untiedPolicyC]).2.2.2 (by decide)

/-- C9: the sort is stable: two policies whose keys compare equal (comparator
returns 0) keep, in the sorted output, the relative order they had in the
input list. -/
theorem sortPolicies_stable (col : SortColumn) (dir : SortDir) (l : List Policy)
    (a b : Policy) (htie : policyCompare col dir a b = 0) (hab : [a, b].Sublist l) :
    [a, b].Sublist (sortPolicies col dir l) :=
  stableSort_pair _ (by rw [decide_eq_true_eq, htie]) l hab

/-- C9 witness: two policies tied on policyNumber keep their order. -/
theorem sortPolicies_stable_witness :
    [tiedPolicyA, tiedPolicyB].Sublist
      (sortPolicies SortColumn.policyNumber SortDir.asc [tiedPolicyA, tiedPolicyB]) :=
  sortPolicies_stable SortColumn.policyNumber SortDir.asc [tiedPolicyA, tiedPolicyB]
    tiedPolicyA tiedPolicyB (by decide) (List.Sublist.refl _)

/-- C10: for a date-valued sort key an absent value is assigned numeric
timestamp 0, so in the ascending result no policy with a positive timestamp
precedes a policy lacking the key, and in the descending result no policy
lacking the key precedes one with a positive timestamp. -/
theorem dateSort_absent_zero (col : SortColumn)
    (hcol : col = SortColumn.createdAt ∨ col = SortColumn.policyDate
        ∨ col = SortColumn.validUntil)
    (l : List Policy) :
    (∀ p : Policy, dateFieldOf col p = none → dateKey col p = 0)
    ∧ (sortPolicies col SortDir.asc l).Pairwise
        (fun x y => ¬(0 < dateKey col x ∧ dateFieldOf col y = none))
    ∧ (sortPolicies col SortDir.desc l).Pairwise
        (fun x y => ¬(dateFieldOf col x = none ∧ 0 < dateKey col y)) := by
  have hko : ∀ a b : Policy,
      keyOrd col a b = ordOf natLt (dateKey col a) (dateKey col b) := by
    rcases hcol with rfl | rfl | rfl <;> exact fun a b => rfl
  have hgt : ∀ a b : Policy,
      keyOrd col a b ≠ Ordering.gt ↔ dateKey col a ≤ dateKey col b := by
    intro a b
    rw [hko]
    constructor
    · intro h
      by_contra hlt
      refine h ((ordOf_gt_iff natLt natLt_asymm _ _).mpr ?_)
      simp only [natLt, decide_eq_true_eq]
      omega
    · intro h hc
      have hba := (ordOf_gt_iff natLt natLt_asymm _ _).mp hc
      simp only [natLt, decide_eq_true_eq] at hba
      omega
  refine ⟨?_, ?_, ?_⟩
  · intro p hp
    rw [dateKey, hp]
    rfl
  · have hsorted : (sortPolicies col SortDir.asc l).Pairwise
        (fun a b => decide (policyCompare col SortDir.asc a b ≤ 0) = true) :=
      stableSort_pairwise _ l (leAsc_total col)
        (fun a b c _ _ _ h1 h2 => by
          rw [decide_eq_true_eq, policyCompare_asc_le_iff, hgt] at h1 h2 ⊢
          omega)
    refine hsorted.imp ?_
    rintro a b h ⟨hpos, habs⟩
    rw [decide_eq_true_eq, policyCompare_asc_le_iff, hgt] at h
    have hz : dateKey col b = 0 := by rw [dateKey, habs]; rfl
    omega
  · show (stableSort (fun a b => decide (policyCompare col SortDir.desc a b ≤ 0)) l).Pairwise _
    rw [stableSort_congr (jsLe_desc_flip col) l]
    have hsorted : (stableSort
        (fun a b => decide (policyCompare col SortDir.asc b a ≤ 0)) l).Pairwise
        (fun a b => decide (policyCompare col SortDir.asc b a ≤ 0) = true) :=
      stableSort_pairwise _ l (fun a b h => leAsc_total col b a h)
        (fun a b c _ _ _ h1 h2 => by
          rw [decide_eq_true_eq, policyCompare_asc_le_iff, hgt] at h1 h2 ⊢
          omega)
    refine hsorted.imp ?_
    rintro a b h ⟨habs, hpos⟩
    rw [decide_eq_true_eq, policyCompare_asc_le_iff, hgt] at h
    have hz : dateKey col a = 0 := by rw [dateKey, habs]; rfl
    omega

def datedPolicy : Policy :=
  ⟨"p4", "New Policy", none, some 86400000, none, none, "PN-4", "", "", false, false,
    none, none⟩

/-- C10 witness: ascending sort by validUntil on a positive-dated policy and
one lacking the date. -/
theorem dateSort_absent_zero_witness :
    (sortPolicies SortColumn.validUntil SortDir.asc [datedPolicy, tiedPolicyA]).Pairwise
      (fun x y => ¬(0 < dateKey SortColumn.validUntil x
          ∧ dateFieldOf SortColumn.validUntil y = none)) :=
  (dateSort_absent_zero SortColumn.validUntil (Or.inr (Or.inr rfl))
    [datedPolicy, tiedPolicyA]).2.1

/-- C2 witness: the A1 row of the scenario counts its two policies. -/
theorem customerDeriver_correct_witness :
    scenarioRowA1.policiesCount
      = countId [scenarioPolicyA1, scenarioPolicyA2, scenarioPolicyB]
          scenarioRowA1.idNumber :=
  ((customerDeriver_correct.1 [scenarioPolicyA1, scenarioPolicyA2, scenarioPolicyB]).2.2.2
    scenarioRowA1
    (by rw [customerDeriver_correct.2]; exact List.mem_cons_self _ _)).1

/-- C4 witness: with every filter blank, a policy passes. -/
theorem filteredPolicies_mem_iff_witness :
    tiedPolicyA ∈ filteredPolicies ⟨"", "", "", "all", "all", none, none⟩ [tiedPolicyA] :=
  (filteredPolicies_mem_iff ⟨"", "", "", "all", "all", none, none⟩ [tiedPolicyA]
      tiedPolicyA).mpr
    ⟨List.mem_cons_self _ _, Or.inl rfl, Or.inl rfl, Or.inl rfl, Or.inl rfl, Or.inl rfl,
      fun s v hs _ => by simp at hs, fun e v he _ => by simp at he⟩
